import Mathlib

/-!
Verification of the LotMint Calypso distributed long-term-secret service and the
unicore ledger client, against their natural-language specification.

The elliptic-curve group of the spec (section 2, "Group Algebra Layer") is
modelled in exponent coordinates: points and scalars are both elements of
`ZMod q`, the generator is `1`, scalar multiplication of a point is ring
multiplication, and point addition is ring addition.  The reversible
point-to-byte-string embedding becomes the embedding of `Fin k` (the key byte
strings of bounded size) into `ZMod q` via the natural cast, with `k ≤ q`
giving reversibility.
-/

namespace Calypso

/-- The group generator `G` in exponent coordinates. -/
def Gq (q : ℕ) : ZMod q := 1

/-- Point serialization (`MarshalBinary` of kyber points): in the `ZMod q`
model a point is serialized as its canonical representative. -/
def marshal (q : ℕ) (p : ZMod q) : ℕ := p.val

/-- Embedding of a key byte string (an element of `Fin k`) as a group point,
the `suite.Point().Embed` half of the reversible embedding of spec section 2. -/
def embedData (q k : ℕ) (m : Fin k) : ZMod q := (m.val : ZMod q)

/-- Extraction of embedded data from a point (`Point.Data()` in kyber):
succeeds exactly when the point's representative lies in the data range. -/
def pointData (q k : ℕ) (p : ZMod q) : Option (Fin k) :=
  if h : p.val < k then some ⟨p.val, h⟩ else none

/-- A write record: `Write{U, C, LTSInstanceID, ...}` with `U = s·G` and
`C = K + s·X` (spec section 3). -/
structure WriteRec (q : ℕ) where
  U : ZMod q
  C : ZMod q
  ltsID : ℕ

/-- A read record: `Read{WriteInstanceID, Xc}` where `writeRef` is the Go field
`Write` (the referenced write instance id) and `Xc` the requester's ephemeral
public key (spec section 3). -/
structure ReadRec (q : ℕ) where
  writeRef : ℕ
  Xc : ZMod q

/-- Modelled from the spec: `NewWrite` (the write-record constructor, absent
from src — only its call sites in the tests are present).  Per spec section 3,
`U = s·G` and `C = K + s·X` where `K` is the key embedded as a point and `s`
the writer's one-time random scalar. -/
def NewWrite (q k : ℕ) (ltsID : ℕ) (X : ZMod q) (m : Fin k) (s : ZMod q) :
    WriteRec q :=
  { U := s * Gq q, C := embedData q k m + s * X, ltsID := ltsID }

/-- Error taxonomy of spec section 7. -/
inductive CalErr
  | readWriteMismatch
  | disjointRosterRejected
  | unknownInstance
  | wrongRecordKind
  | decodeFailed
  deriving DecidableEq, Repr

/-- Reply of the trusted decryption path, `DecryptKeyReply{X, XhatEnc, C}`. -/
structure DecryptKeyReply (q : ℕ) where
  X : ZMod q
  XhatEnc : ZMod q
  C : ZMod q

/-- Modelled from the spec: the trusted-path `DecryptKey` service endpoint
(spec section 4.4; the service implementation is absent from src, only its
tests).  It first cross-checks `read.WriteInstanceID == write's instance id`,
failing with `ReadWriteMismatch` before producing any key material, and
otherwise returns the aggregation of the `t` per-node partial re-encryptions,
which reconstructs to `XhatEnc = x·(U + Xc)` for the underlying shared secret
`x` — the unique value compatible with the recovery formula of section 4.4. -/
def DecryptKey (q : ℕ) (x : ZMod q) (wid : ℕ) (w : WriteRec q) (r : ReadRec q) :
    Except CalErr (DecryptKeyReply q) :=
  if r.writeRef = wid then
    Except.ok { X := x * Gq q, XhatEnc := x * (w.U + r.Xc), C := w.C }
  else
    Except.error CalErr.readWriteMismatch

/-- Client-side recovery, translated from `recoverReencKey` in
`src/calypso/service_test.go`: `XcInv = -xc`, `XhatDec = XcInv·X`,
`Xhat = XhatEnc + XhatDec`, and the key is the data of `C - Xhat`. -/
def recoverReencKey (q k : ℕ) (xc : ZMod q) (XhatEnc X C : ZMod q) :
    Option (Fin k) :=
  let XcInv := -xc
  let XhatDec := XcInv * X
  let Xhat := XhatEnc + XhatDec
  let XhatInv := -Xhat
  pointData q k (C + XhatInv)

/-- Translated from `recoverKey` in `src/calypso/service_test.go`: the key is
the data of `C - XhatEnc`; no ephemeral private scalar is involved. -/
def recoverKey (q k : ℕ) (XhatEnc C : ZMod q) : Option (Fin k) :=
  let XhatInv := -XhatEnc
  pointData q k (C + XhatInv)

/-- Modelled from the spec: the `DecryptKeyReply.RecoverKey` method (absent
from src), whose formula section 4.4 gives as `XhatDec = -xc·X`,
`Xhat = XhatEnc + XhatDec`, `K = C - Xhat` — identical to the test helper
`recoverReencKey`. -/
def DecryptKeyReply.RecoverKey (q k : ℕ) (rep : DecryptKeyReply q)
    (xc : ZMod q) : Option (Fin k) :=
  recoverReencKey q k xc rep.XhatEnc rep.X rep.C

/-- Modelled from the spec: an idealized BLS collective signature (the
`blscosi` protocol is absent from src): it records the signed message hash and
the set of cosigners that produced it. -/
structure BlsSignature where
  signers : Finset ℕ
  msg : ℕ

/-- Threshold `t = n - (n-1)/3`, translated from `reconstructKeyFunc` in
`src/calypso/service_test.go` (`th := n - (n-1)/3`, Go integer division). -/
def threshold (n : ℕ) : ℕ := n - (n - 1) / 3

/-- Modelled from the spec: the symbolic collision-free hash over the pair
`(DKID, serialized XhatEnc)` standing for `sha256(DKID ∥ XhatEnc)` of the
source's `verifySignature`. -/
def hash2 (dkid ptBytes : ℕ) : ℕ := Nat.pair dkid ptBytes

/-- Modelled from the spec: BLS collective signature verification
(`sig.Verify(suite, data, publics)`, absent from src).  Per the verification
contract of section 4.5, it succeeds iff the signature signs exactly `data`
and carries at least `t` cosigners drawn from `publics`. -/
def blsVerify (sig : BlsSignature) (data : ℕ) (publics : Finset ℕ) : Bool :=
  decide (sig.msg = data) && decide (sig.signers ⊆ publics) &&
    decide (threshold publics.card ≤ sig.signers.card)

/-- Translated from `verifySignature` in `src/calypso/service_test.go`:
hash the DKID together with the marshalled `XhatEnc`, then verify the
collective signature on that digest against `publics`. -/
def verifySignature (q : ℕ) (dkid : ℕ) (XhatEnc : ZMod q)
    (sig : BlsSignature) (publics : Finset ℕ) : Bool :=
  blsVerify sig (hash2 dkid (marshal q XhatEnc)) publics

/-- Reply of the verifiable decryption path,
`DecryptKeyNTReply{X, XhatEnc, C, Signature}`. -/
structure DecryptKeyNTReply (q : ℕ) where
  X : ZMod q
  XhatEnc : ZMod q
  C : ZMod q
  Signature : BlsSignature

/-- Modelled from the spec: the non-interactive verifiable `DecryptKeyNT`
service endpoint (spec section 4.5; implementation absent from src).  The
read/write cross-check is as in the trusted path; with `IsReenc = false` only
the base decryption `XhatEnc = x·U` is produced, with `IsReenc = true` the
re-encryption `XhatEnc = x·(U + Xc)`; the reply carries a threshold signature
over `Hash(DKID, serialize(XhatEnc))` by the roster's signing sub-service. -/
def DecryptKeyNT (q : ℕ) (x : ZMod q) (signers : Finset ℕ) (dkid : ℕ)
    (isReenc : Bool) (wid : ℕ) (w : WriteRec q) (r : ReadRec q) :
    Except CalErr (DecryptKeyNTReply q) :=
  if r.writeRef = wid then
    let xhat := if isReenc then x * (w.U + r.Xc) else x * w.U
    Except.ok { X := x * Gq q, XhatEnc := xhat, C := w.C,
                Signature := { signers := signers,
                               msg := hash2 dkid (marshal q xhat) } }
  else
    Except.error CalErr.readWriteMismatch

/-- Ledger record tags: contract identifiers of the stored records
(`ContractWriteID`, `ContractReadID` in the source), modelled as a closed
enumeration of record kinds per spec section 4.3. -/
def ContractWriteID : ℕ := 0

/-- Contract kind tag of read records. -/
def ContractReadID : ℕ := 1

/-- Typed payload stored under a ledger proof: a closed tagged variant as the
spec's design notes demand. -/
inductive Payload (q : ℕ)
  | writeP (w : WriteRec q)
  | readP (r : ReadRec q)

/-- A ledger inclusion proof as the Authorization Adapter sees it: the stored
record's contract-kind tag and its payload (`proof.KeyValue()` in the
source). -/
structure LedgerProof (q : ℕ) where
  contractID : ℕ
  payload : Payload q

/-- Modelled from the spec: `GenerateDKID` (absent from src; `generateID` in
the tests calls it).  Per spec sections 3 and 4.5 the DKID is a collision-free
hash of `write.U`, `read.Xc` and `read.WriteInstanceID`, modelled with the
injective pairing function. -/
def GenerateDKID (q : ℕ) (writeRef : ℕ) (Xc U : ZMod q) : ℕ :=
  Nat.pair writeRef (Nat.pair (marshal q Xc) (marshal q U))

/-- Translated from `generateID` in `src/calypso/service_test.go`: check that
the read proof points to a read instance and decode it, check that the write
proof points to a write instance and decode it, then compute
`GenerateDKID(r.Write, r.Xc, w.U)`. -/
def generateID (q : ℕ) (prW prRe : LedgerProof q) : Except CalErr ℕ :=
  if prRe.contractID ≠ ContractReadID then Except.error CalErr.wrongRecordKind
  else
    match prRe.payload with
    | Payload.readP r =>
      if prW.contractID ≠ ContractWriteID then
        Except.error CalErr.wrongRecordKind
      else
        match prW.payload with
        | Payload.writeP w => Except.ok (GenerateDKID q r.writeRef r.Xc w.U)
        | _ => Except.error CalErr.decodeFailed
    | _ => Except.error CalErr.decodeFailed

/-- Evaluation point of the share with roster index `i`: kyber's
`PriPoly.Eval(i)` evaluates the sharing polynomial at the scalar `1 + i`. -/
def shareX (q : ℕ) (i : ℕ) : ZMod q := ((i + 1 : ℕ) : ZMod q)

/-- Horner evaluation of the sharing polynomial given by its coefficient list
(constant term first). -/
def polyEval (q : ℕ) (coeffs : List (ZMod q)) (x : ZMod q) : ZMod q :=
  coeffs.foldr (fun a acc => a + x * acc) 0

/-- Lagrange coefficient at zero of index `i` within the participating set
`S`, as used by kyber's `share.RecoverSecret`. -/
def lagrangeCoeff (q : ℕ) [Fact (Nat.Prime q)] (S : Finset ℕ) (i : ℕ) :
    ZMod q :=
  ∏ j ∈ S.erase i, shareX q j / (shareX q j - shareX q i)

/-- Modelled from the spec: kyber's `share.RecoverSecret` (absent from src;
`reconstructKeyFunc` in the tests calls it) — Lagrange interpolation of the
shares of the participating set `S` at zero, recovering the polynomial's
constant term. -/
def recoverSecret (q : ℕ) [Fact (Nat.Prime q)] (S : Finset ℕ)
    (v : ℕ → ZMod q) : ZMod q :=
  ∑ i ∈ S, lagrangeCoeff q S i * v i

/-- The sharing polynomial of a coefficient list, as a `Polynomial`; this is
not part of the embedded program — it is a proof-only bridge connecting the
executable `polyEval` with Mathlib's Lagrange interpolation. -/
noncomputable def listPoly (q : ℕ) (coeffs : List (ZMod q)) :
    Polynomial (ZMod q) :=
  coeffs.foldr (fun a p => Polynomial.C a + Polynomial.X * p) 0

/-- State of one LTS instance in a node's Share Store (spec section 3): the
current roster, the sharing polynomial whose evaluations are the nodes'
shares, and the epoch counter bumped by each successful reshare. -/
structure LtsState (q : ℕ) where
  roster : Finset ℕ
  coeffs : List (ZMod q)
  epoch : ℕ

/-- The shared secret scalar underlying an LTS instance: the sharing
polynomial's constant term. -/
def LtsState.secret {q : ℕ} (st : LtsState q) : ZMod q := polyEval q st.coeffs 0

/-- The LTS public key `X = secret·G`. -/
def LtsState.X {q : ℕ} (st : LtsState q) : ZMod q := st.secret * Gq q

/-- Modelled from the spec: the resharing engine (spec section 4.2;
implementation absent from src).  A new roster entirely disjoint from the
current one is rejected with `DisjointRosterRejected` before any share is
transmitted; otherwise the new roster receives a fresh `t'-of-n'` sharing of
the same underlying scalar (re-randomized coefficients, unchanged constant
term) and the epoch is bumped. -/
def reshareLTS (q : ℕ) (st : LtsState q) (newRoster : Finset ℕ)
    (rand : List (ZMod q)) : Except CalErr (LtsState q) :=
  if st.roster ∩ newRoster = ∅ then
    Except.error CalErr.disjointRosterRejected
  else
    Except.ok { roster := newRoster,
                coeffs := st.secret :: rand.take (threshold newRoster.card - 1),
                epoch := st.epoch + 1 }

/-- Translated from `reconstructKeyFunc` in `src/calypso/service_test.go`:
collect the shares of all `n` roster nodes and recover the secret with
threshold `t = n - (n-1)/3`. -/
def reconstructKey (q : ℕ) [Fact (Nat.Prime q)] (st : LtsState q) : ZMod q :=
  recoverSecret q (Finset.range st.roster.card)
    (fun i => polyEval q st.coeffs (shareX q i))

/-- The per-node Share Store: a map from LTS instance identifier to the
instance state (spec section 2). -/
def ShareStore (q : ℕ) := ℕ → Option (LtsState q)

/-- Modelled from the spec: the `ReshareLTS` service entry point mutating the
Share Store in place (implementation absent from src).  It looks up the
instance, runs the resharing engine, and commits the new state only on
success; on any error the store is returned unmodified. -/
def serviceReshareLTS (q : ℕ) (store : ShareStore q) (iid : ℕ)
    (newRoster : Finset ℕ) (rand : List (ZMod q)) :
    ShareStore q × Option CalErr :=
  match store iid with
  | none => (store, some CalErr.unknownInstance)
  | some st =>
    match reshareLTS q st newRoster rand with
    | Except.error e => (store, some e)
    | Except.ok st2 => (fun j => if j = iid then some st2 else store j, none)

/-- The concrete prime group order used by the witness instantiations. -/
instance factPrime11 : Fact (Nat.Prime 11) := ⟨by norm_num⟩

end Calypso

namespace Unicore

/-!
Embedding of `src/unicore/api.go`.  The byzcoin ledger, darc signers and
instruction signing are external collaborators; their two fallible calls
(`ctx.FillSignersAndSignWith` and `AddTransactionAndWait`) are modelled as
oracle parameters carrying either an error value or success, and the instance
identifier derived from the spawn instruction
(`ctx.Instructions[0].DeriveID("")`) is likewise passed in.  The client's
mutable fields relevant to the claims are `Counters` and `Instance`.
-/

/-- The mutable client state of `unicore.Client` (`src/unicore/api.go`):
the per-signer counters and the current instance identifier. -/
structure Client where
  Counters : List ℕ
  Instance : ℕ

/-- Translated from `Client.increaseCounters`: every counter is incremented
in place by one. -/
def increaseCounters (c : Client) : Client :=
  { c with Counters := c.Counters.map (fun count => count + 1) }

/-- Translated from `Client.Create`: build and sign the spawn transaction,
submit it, and only on success set `Instance` to the derived identifier and
increment the counters.  An error from signing or submission returns before
any client field is touched. -/
def create (c : Client) (derivedID : ℕ) (signErr addErr : Option ℕ) :
    Client × Option ℕ :=
  match signErr with
  | some e => (c, some e)
  | none =>
    match addErr with
    | some e => (c, some e)
    | none => (increaseCounters { c with Instance := derivedID }, none)

/-- Translated from `Client.Exec`: build and sign the invoke transaction on
the stored instance, submit it, and only on success increment the counters;
`Instance` is never written. -/
def exec (c : Client) (signErr addErr : Option ℕ) : Client × Option ℕ :=
  match signErr with
  | some e => (c, some e)
  | none =>
    match addErr with
    | some e => (c, some e)
    | none => (increaseCounters c, none)

end Unicore

namespace Calypso

theorem pointData_embedData (q k : ℕ) (hk : k ≤ q) (m : Fin k) :
    pointData q k (embedData q k m) = some m := by
  haveI : NeZero q := ⟨by have := m.isLt; omega⟩
  have hval : (embedData q k m).val = m.val := by
    unfold embedData
    exact ZMod.val_cast_of_lt (lt_of_lt_of_le m.isLt hk)
  unfold pointData
  rw [hval]
  simp [m.isLt]

/-- C1: a write of key bytes `m` under the LTS public key, read with a genuine
read record carrying any ephemeral public key `xc·G`, decrypts — on the
trusted path and on the verifiable path with `IsReenc = true` — to a reply
from which `recoverReencKey` (equivalently `RecoverKey`) with the ephemeral
private scalar `xc` returns exactly the original key bytes. -/
theorem decrypt_recover_roundtrip (q k : ℕ) (hk : k ≤ q) (m : Fin k)
    (x s xc : ZMod q) (wid ltsID dkid : ℕ) (signers : Finset ℕ) :
    ∃ (rep : DecryptKeyReply q) (repNT : DecryptKeyNTReply q),
      DecryptKey q x wid (NewWrite q k ltsID (x * Gq q) m s)
          { writeRef := wid, Xc := xc * Gq q } = Except.ok rep ∧
      DecryptKeyReply.RecoverKey q k rep xc = some m ∧
      recoverReencKey q k xc rep.XhatEnc rep.X rep.C = some m ∧
      DecryptKeyNT q x signers dkid true wid
          (NewWrite q k ltsID (x * Gq q) m s)
          { writeRef := wid, Xc := xc * Gq q } = Except.ok repNT ∧
      recoverReencKey q k xc repNT.XhatEnc repNT.X repNT.C = some m := by
  have halg :
      embedData q k m + s * (x * Gq q) +
        -(x * (s * Gq q + xc * Gq q) + -xc * (x * Gq q)) = embedData q k m := by
    ring
  refine ⟨{ X := x * Gq q,
            XhatEnc := x * ((NewWrite q k ltsID (x * Gq q) m s).U + xc * Gq q),
            C := (NewWrite q k ltsID (x * Gq q) m s).C }, ?_, ?_, ?_, ?_, ?_, ?_⟩
  · exact { X := x * Gq q,
            XhatEnc := x * ((NewWrite q k ltsID (x * Gq q) m s).U + xc * Gq q),
            C := (NewWrite q k ltsID (x * Gq q) m s).C,
            Signature := { signers := signers,
                           msg := hash2 dkid (marshal q
                             (x * ((NewWrite q k ltsID (x * Gq q) m s).U +
                               xc * Gq q))) } }
  · simp [DecryptKey]
  · unfold DecryptKeyReply.RecoverKey recoverReencKey
    simp only [NewWrite]
    rw [halg]
    exact pointData_embedData q k hk m
  · unfold recoverReencKey
    simp only [NewWrite]
    rw [halg]
    exact pointData_embedData q k hk m
  · simp [DecryptKeyNT]
  · unfold recoverReencKey
    simp only [NewWrite]
    rw [halg]
    exact pointData_embedData q k hk m

/-- C1 witness: concrete instantiation over `ZMod 31` with 12-byte-sized data
space, requester scalar 5, writer randomness 7, secret 3. -/
theorem decrypt_recover_roundtrip_witness :
    (12 ≤ 31) ∧
    ∃ (rep : DecryptKeyReply 31) (repNT : DecryptKeyNTReply 31),
      DecryptKey 31 3 2 (NewWrite 31 12 9 (3 * Gq 31) ⟨11, by decide⟩ 7)
          { writeRef := 2, Xc := 5 * Gq 31 } = Except.ok rep ∧
      DecryptKeyReply.RecoverKey 31 12 rep 5 = some ⟨11, by decide⟩ ∧
      recoverReencKey 31 12 5 rep.XhatEnc rep.X rep.C = some ⟨11, by decide⟩ ∧
      DecryptKeyNT 31 3 {0, 1, 2, 3} 77 true 2
          (NewWrite 31 12 9 (3 * Gq 31) ⟨11, by decide⟩ 7)
          { writeRef := 2, Xc := 5 * Gq 31 } = Except.ok repNT ∧
      recoverReencKey 31 12 5 repNT.XhatEnc repNT.X repNT.C =
        some ⟨11, by decide⟩ :=
  ⟨by decide,
   decrypt_recover_roundtrip 31 12 (by decide) ⟨11, by decide⟩ 3 7 5 2 9 77
     {0, 1, 2, 3}⟩

/-- C2: whenever the read record references a different write instance than
the one supplied, both decryption paths return `ReadWriteMismatch` — an error,
never a reply carrying key material. -/
theorem mismatch_rejected (q : ℕ) (x : ZMod q) (wid : ℕ) (w : WriteRec q)
    (r : ReadRec q) (signers : Finset ℕ) (dkid : ℕ) (isReenc : Bool)
    (hmis : r.writeRef ≠ wid) :
    DecryptKey q x wid w r = Except.error CalErr.readWriteMismatch ∧
    DecryptKeyNT q x signers dkid isReenc wid w r =
      Except.error CalErr.readWriteMismatch := by
  constructor
  · unfold DecryptKey
    rw [if_neg hmis]
  · unfold DecryptKeyNT
    rw [if_neg hmis]

/-- C2 witness: a read referencing write instance 4 against write instance 2
is rejected by both paths. -/
theorem mismatch_rejected_witness :
    ((4 : ℕ) ≠ 2) ∧
    (DecryptKey 31 3 2 { U := 1, C := 1, ltsID := 0 }
        { writeRef := 4, Xc := 1 } = Except.error CalErr.readWriteMismatch ∧
     DecryptKeyNT 31 3 {0, 1} 7 true 2 { U := 1, C := 1, ltsID := 0 }
        { writeRef := 4, Xc := 1 } = Except.error CalErr.readWriteMismatch) :=
  ⟨by decide,
   mismatch_rejected 31 3 2 { U := 1, C := 1, ltsID := 0 }
     { writeRef := 4, Xc := 1 } {0, 1} 7 true (by decide)⟩

/-- C8: a `DecryptKeyNT` request with `IsReenc = false` on a matching
write/read pair performs only the base decryption: the returned `XhatEnc` is
`x·U` (no re-encryption blinding), `C - XhatEnc` decodes directly to the
original key bytes with no ephemeral recipient private scalar, and mismatched
pairs fail exactly as in the trusted path. -/
theorem base_decrypt_no_blinding (q k : ℕ) (hk : k ≤ q) (m : Fin k)
    (x s xcPt : ZMod q) (wid ltsID dkid : ℕ) (signers : Finset ℕ) :
    (∃ rep : DecryptKeyNTReply q,
      DecryptKeyNT q x signers dkid false wid
          (NewWrite q k ltsID (x * Gq q) m s)
          { writeRef := wid, Xc := xcPt } = Except.ok rep ∧
      rep.XhatEnc = x * (NewWrite q k ltsID (x * Gq q) m s).U ∧
      recoverKey q k rep.XhatEnc rep.C = some m) ∧
    (∀ (w' : WriteRec q) (r' : ReadRec q) (wid' : ℕ), r'.writeRef ≠ wid' →
      DecryptKeyNT q x signers dkid false wid' w' r' =
          Except.error CalErr.readWriteMismatch ∧
      DecryptKey q x wid' w' r' = Except.error CalErr.readWriteMismatch) := by
  constructor
  · refine ⟨{ X := x * Gq q,
              XhatEnc := x * (NewWrite q k ltsID (x * Gq q) m s).U,
              C := (NewWrite q k ltsID (x * Gq q) m s).C,
              Signature := { signers := signers,
                             msg := hash2 dkid (marshal q
                               (x * (NewWrite q k ltsID (x * Gq q) m s).U)) } },
            ?_, rfl, ?_⟩
    · simp [DecryptKeyNT]
    · unfold recoverKey
      simp only [NewWrite]
      have halg : embedData q k m + s * (x * Gq q) + -(x * (s * Gq q)) =
          embedData q k m := by ring
      rw [halg]
      exact pointData_embedData q k hk m
  · intro w' r' wid' hmis
    constructor
    · unfold DecryptKeyNT
      rw [if_neg hmis]
    · unfold DecryptKey
      rw [if_neg hmis]

/-- C9: the DKID is `Hash(write.U, read.Xc, read.WriteInstanceID)` and a
deterministic function of the two records alone: any two proof pairs carrying
the same write and read records yield the same identifier. -/
theorem dkid_deterministic (q : ℕ) (w : WriteRec q) (r : ReadRec q)
    (prW prRe prW2 prRe2 : LedgerProof q)
    (h1 : prW.contractID = ContractWriteID)
    (h2 : prW.payload = Payload.writeP w)
    (h3 : prRe.contractID = ContractReadID)
    (h4 : prRe.payload = Payload.readP r)
    (h5 : prW2.contractID = ContractWriteID)
    (h6 : prW2.payload = Payload.writeP w)
    (h7 : prRe2.contractID = ContractReadID)
    (h8 : prRe2.payload = Payload.readP r) :
    generateID q prW prRe = Except.ok (GenerateDKID q r.writeRef r.Xc w.U) ∧
    generateID q prW2 prRe2 = generateID q prW prRe := by
  have hgen : ∀ pW pRe : LedgerProof q, pW.contractID = ContractWriteID →
      pW.payload = Payload.writeP w → pRe.contractID = ContractReadID →
      pRe.payload = Payload.readP r →
      generateID q pW pRe = Except.ok (GenerateDKID q r.writeRef r.Xc w.U) := by
    intro pW pRe hW1 hW2 hR1 hR2
    unfold generateID
    rw [hR1, hR2, hW1, hW2]
    simp
  have ha := hgen prW prRe h1 h2 h3 h4
  have hb := hgen prW2 prRe2 h5 h6 h7 h8
  exact ⟨ha, by rw [ha, hb]⟩

/-- C9 witness: two distinct proof pairs carrying the same records produce the
same DKID. -/
theorem dkid_deterministic_witness :
    generateID 31
        { contractID := ContractWriteID,
          payload := Payload.writeP { U := 4, C := 9, ltsID := 1 } }
        { contractID := ContractReadID,
          payload := Payload.readP { writeRef := 3, Xc := 8 } } =
      Except.ok (GenerateDKID 31 3 (8 : ZMod 31) (4 : ZMod 31)) ∧
    generateID 31
        { contractID := ContractWriteID,
          payload := Payload.writeP { U := 4, C := 9, ltsID := 1 } }
        { contractID := ContractReadID,
          payload := Payload.readP { writeRef := 3, Xc := 8 } } =
      generateID 31
        { contractID := ContractWriteID,
          payload := Payload.writeP { U := 4, C := 9, ltsID := 1 } }
        { contractID := ContractReadID,
          payload := Payload.readP { writeRef := 3, Xc := 8 } } :=
  dkid_deterministic 31 { U := 4, C := 9, ltsID := 1 }
    { writeRef := 3, Xc := 8 }
    { contractID := ContractWriteID,
      payload := Payload.writeP { U := 4, C := 9, ltsID := 1 } }
    { contractID := ContractReadID,
      payload := Payload.readP { writeRef := 3, Xc := 8 } }
    { contractID := ContractWriteID,
      payload := Payload.writeP { U := 4, C := 9, ltsID := 1 } }
    { contractID := ContractReadID,
      payload := Payload.readP { writeRef := 3, Xc := 8 } }
    rfl rfl rfl rfl rfl rfl rfl rfl

/-- C6: `verifySignature(DKID, XhatEnc, sig, publics)` succeeds iff the
signature was produced over exactly `Hash(DKID, serialize(XhatEnc))` by at
least `t` cosigners from `publics`; consequently a signature can only ever
verify for the one `(DKID, XhatEnc)` pair it signs — altering either value
invalidates it. -/
theorem verify_signature_contract (q : ℕ) (hq : 0 < q) (dkid : ℕ)
    (XhatEnc : ZMod q) (sig : BlsSignature) (publics : Finset ℕ) :
    (verifySignature q dkid XhatEnc sig publics = true ↔
      sig.msg = hash2 dkid (marshal q XhatEnc) ∧ sig.signers ⊆ publics ∧
        threshold publics.card ≤ sig.signers.card) ∧
    (∀ (dkid2 : ℕ) (XhatEnc2 : ZMod q),
      verifySignature q dkid XhatEnc sig publics = true →
      verifySignature q dkid2 XhatEnc2 sig publics = true →
      dkid2 = dkid ∧ XhatEnc2 = XhatEnc) := by
  haveI : NeZero q := ⟨Nat.pos_iff_ne_zero.mp hq⟩
  have hiff : ∀ (d : ℕ) (P : ZMod q),
      verifySignature q d P sig publics = true ↔
        sig.msg = hash2 d (marshal q P) ∧ sig.signers ⊆ publics ∧
          threshold publics.card ≤ sig.signers.card := by
    intro d P
    unfold verifySignature blsVerify
    simp [and_assoc]
  refine ⟨hiff dkid XhatEnc, ?_⟩
  intro dkid2 XhatEnc2 hv1 hv2
  have e1 := ((hiff dkid XhatEnc).mp hv1).1
  have e2 := ((hiff dkid2 XhatEnc2).mp hv2).1
  have : hash2 dkid2 (marshal q XhatEnc2) = hash2 dkid (marshal q XhatEnc) := by
    rw [← e1, ← e2]
  unfold hash2 at this
  rcases Nat.pair_eq_pair.mp this with ⟨hd, hm⟩
  exact ⟨hd, ZMod.val_injective q hm⟩

/-- C6 witness: a genuine signature by 3 of 4 roster members verifies, and the
theorem pins its message to the exact signed pair. -/
theorem verify_signature_contract_witness :
    ((0 : ℕ) < 31) ∧
    (verifySignature 31 5 (9 : ZMod 31)
        { signers := {0, 1, 2}, msg := hash2 5 (marshal 31 (9 : ZMod 31)) }
        {0, 1, 2, 3} = true ↔
      ({ signers := {0, 1, 2},
         msg := hash2 5 (marshal 31 (9 : ZMod 31)) } : BlsSignature).msg =
          hash2 5 (marshal 31 (9 : ZMod 31)) ∧
        ({0, 1, 2} : Finset ℕ) ⊆ {0, 1, 2, 3} ∧
        threshold (({0, 1, 2, 3} : Finset ℕ).card) ≤
          (({0, 1, 2} : Finset ℕ).card)) :=
  ⟨by decide,
   (verify_signature_contract 31 (by decide) 5 (9 : ZMod 31)
      { signers := {0, 1, 2}, msg := hash2 5 (marshal 31 (9 : ZMod 31)) }
      {0, 1, 2, 3}).1⟩

/-- C8 witness: concrete base decryption over `ZMod 31` plus a concrete
mismatch rejection. -/
theorem base_decrypt_no_blinding_witness :
    (12 ≤ 31) ∧
    (∃ rep : DecryptKeyNTReply 31,
      DecryptKeyNT 31 3 {0, 1} 7 false 2
          (NewWrite 31 12 9 (3 * Gq 31) ⟨11, by decide⟩ 7)
          { writeRef := 2, Xc := 6 } = Except.ok rep ∧
      rep.XhatEnc = 3 * (NewWrite 31 12 9 (3 * Gq 31) ⟨11, by decide⟩ 7).U ∧
      recoverKey 31 12 rep.XhatEnc rep.C = some ⟨11, by decide⟩) ∧
    (DecryptKeyNT 31 3 {0, 1} 7 false 5 { U := 1, C := 1, ltsID := 0 }
        { writeRef := 4, Xc := 1 } = Except.error CalErr.readWriteMismatch) := by
  have h := base_decrypt_no_blinding 31 12 (by decide) ⟨11, by decide⟩ 3 7 6 2 9
    7 {0, 1}
  exact ⟨by decide, h.1,
    (h.2 { U := 1, C := 1, ltsID := 0 } { writeRef := 4, Xc := 1 } 5
      (by decide)).1⟩

theorem polyEval_eq_eval (q : ℕ) (coeffs : List (ZMod q)) (x : ZMod q) :
    polyEval q coeffs x = (listPoly q coeffs).eval x := by
  induction coeffs with
  | nil => simp [polyEval, listPoly]
  | cons a tl ih =>
      simp only [polyEval, listPoly, List.foldr] at ih ⊢
      rw [Polynomial.eval_add, Polynomial.eval_C, Polynomial.eval_mul,
        Polynomial.eval_X, ih]

theorem polyEval_cons_zero (q : ℕ) (a : ZMod q) (l : List (ZMod q)) :
    polyEval q (a :: l) 0 = a := by
  simp [polyEval]

theorem degree_listPoly_lt (q : ℕ) [Fact (Nat.Prime q)]
    (coeffs : List (ZMod q)) :
    (listPoly q coeffs).degree < (coeffs.length : WithBot ℕ) := by
  induction coeffs with
  | nil =>
      simp only [listPoly, List.foldr, List.length_nil, Nat.cast_zero,
        Polynomial.degree_zero]
      exact bot_lt_iff_ne_bot.mpr (by simp)
  | cons a tl ih =>
      have hstep : listPoly q (a :: tl) =
          Polynomial.C a + Polynomial.X * listPoly q tl := rfl
      have hcast : ((tl.length + 1 : ℕ) : WithBot ℕ) =
          1 + (tl.length : WithBot ℕ) := by
        rw [Nat.cast_add, Nat.cast_one, add_comm]
      have hC : (Polynomial.C a).degree < ((a :: tl).length : WithBot ℕ) := by
        refine lt_of_le_of_lt Polynomial.degree_C_le ?_
        simp only [List.length_cons]
        exact_mod_cast Nat.succ_pos tl.length
      have hX : (Polynomial.X * listPoly q tl).degree <
          ((a :: tl).length : WithBot ℕ) := by
        refine lt_of_le_of_lt (Polynomial.degree_mul_le _ _) ?_
        rw [Polynomial.degree_X, List.length_cons, hcast]
        exact WithBot.add_lt_add_left (by simp) ih
      rw [hstep]
      exact lt_of_le_of_lt (Polynomial.degree_add_le _ _) (max_lt hC hX)

theorem recoverSecret_eq_interpolate (q : ℕ) [Fact (Nat.Prime q)]
    (S : Finset ℕ) (v : ℕ → ZMod q) :
    recoverSecret q S v = (Lagrange.interpolate S (shareX q) v).eval 0 := by
  rw [Lagrange.interpolate_apply, Polynomial.eval_finset_sum]
  unfold recoverSecret
  refine Finset.sum_congr rfl ?_
  intro i hi
  rw [Polynomial.eval_mul, Polynomial.eval_C, mul_comm]
  congr 1
  unfold lagrangeCoeff Lagrange.basis
  rw [Polynomial.eval_prod]
  refine Finset.prod_congr rfl ?_
  intro j hj
  unfold Lagrange.basisDivisor
  rw [Polynomial.eval_mul, Polynomial.eval_C, Polynomial.eval_sub,
    Polynomial.eval_X, Polynomial.eval_C, zero_sub, div_eq_mul_inv,
    ← neg_sub (shareX q i) (shareX q j), inv_neg]
  ring

theorem recoverSecret_eq_secret (q : ℕ) [Fact (Nat.Prime q)] (S : Finset ℕ)
    (coeffs : List (ZMod q)) (hinj : Set.InjOn (shareX q) S)
    (hlen : coeffs.length ≤ S.card) :
    recoverSecret q S (fun i => polyEval q coeffs (shareX q i)) =
      polyEval q coeffs 0 := by
  rw [recoverSecret_eq_interpolate]
  have hdeg : (listPoly q coeffs).degree < (S.card : WithBot ℕ) :=
    lt_of_lt_of_le (degree_listPoly_lt q coeffs) (by exact_mod_cast hlen)
  have hval : (fun i => polyEval q coeffs (shareX q i)) =
      fun i => (listPoly q coeffs).eval (shareX q i) := by
    funext i
    exact polyEval_eq_eval q coeffs (shareX q i)
  rw [hval, polyEval_eq_eval, ← Lagrange.eq_interpolate hinj hdeg]

theorem shareX_injOn_range (q n : ℕ) [NeZero q] (hn : n < q) :
    Set.InjOn (shareX q) (Finset.range n) := by
  intro i hi j hj hij
  simp only [Finset.coe_range, Set.mem_Iio] at hi hj
  unfold shareX at hij
  have h1 : (i + 1) % q = (j + 1) % q := by
    have h2 := congrArg ZMod.val hij
    rwa [ZMod.val_natCast, ZMod.val_natCast] at h2
  have hiq : i + 1 < q := by omega
  have hjq : j + 1 < q := by omega
  rw [Nat.mod_eq_of_lt hiq, Nat.mod_eq_of_lt hjq] at h1
  omega

theorem threshold_le (n : ℕ) : threshold n ≤ n := Nat.sub_le _ _

theorem threshold_pos (n : ℕ) (hn : 0 < n) : 1 ≤ threshold n := by
  unfold threshold
  omega

theorem reconstructKey_eq_secret (q : ℕ) [Fact (Nat.Prime q)]
    (st : LtsState q) (hq : st.roster.card < q)
    (hlen : st.coeffs.length ≤ threshold st.roster.card) :
    reconstructKey q st = st.secret := by
  haveI : NeZero q := ⟨(Fact.out : Nat.Prime q).ne_zero⟩
  unfold reconstructKey LtsState.secret
  have hinj : Set.InjOn (shareX q) (Finset.range st.roster.card) :=
    shareX_injOn_range q st.roster.card hq
  refine recoverSecret_eq_secret q _ st.coeffs hinj ?_
  rw [Finset.card_range]
  exact le_trans hlen (threshold_le _)

theorem reshare_ok (q : ℕ) (st : LtsState q) (newRoster : Finset ℕ)
    (rand : List (ZMod q)) (hover : (st.roster ∩ newRoster).Nonempty) :
    reshareLTS q st newRoster rand = Except.ok
      { roster := newRoster,
        coeffs := st.secret :: rand.take (threshold newRoster.card - 1),
        epoch := st.epoch + 1 } := by
  unfold reshareLTS
  rw [if_neg (Finset.nonempty_iff_ne_empty.mp hover)]

theorem reconstruct_fresh_sharing (q : ℕ) [Fact (Nat.Prime q)] (a : ZMod q)
    (rand : List (ZMod q)) (R : Finset ℕ) (e : ℕ) (h0 : R.Nonempty)
    (hc : R.card < q) :
    reconstructKey q
      { roster := R, coeffs := a :: rand.take (threshold R.card - 1),
        epoch := e } = a := by
  have ht1 := threshold_pos R.card (Finset.card_pos.mpr h0)
  have hlen2 : (a :: rand.take (threshold R.card - 1)).length ≤
      threshold R.card := by
    simp only [List.length_cons, List.length_take]
    omega
  rw [reconstructKey_eq_secret q _ hc hlen2]
  exact polyEval_cons_zero q a _

/-- C4: the threshold of an `n`-node roster is `t = n - (n-1)/3`, and
recovering the shared secret from exactly `t` valid shares yields the same
scalar as recovering it from any other valid subset of at least `t` shares. -/
theorem threshold_recovery_agreement (q n : ℕ) [Fact (Nat.Prime q)]
    (hnq : n < q) (coeffs : List (ZMod q)) (hlen : coeffs.length ≤ threshold n)
    (S T : Finset ℕ) (hS : S ⊆ Finset.range n) (hT : T ⊆ Finset.range n)
    (hScard : S.card = threshold n) (hTcard : threshold n ≤ T.card) :
    threshold n = n - (n - 1) / 3 ∧
    recoverSecret q S (fun i => polyEval q coeffs (shareX q i)) =
      recoverSecret q T (fun i => polyEval q coeffs (shareX q i)) := by
  haveI : NeZero q := ⟨(Fact.out : Nat.Prime q).ne_zero⟩
  have hinj := shareX_injOn_range q n hnq
  refine ⟨rfl, ?_⟩
  have hTcard2 : T.card ≤ n := by
    have := Finset.card_le_card hT
    rwa [Finset.card_range] at this
  rw [recoverSecret_eq_secret q S coeffs (hinj.mono (Finset.coe_subset.mpr hS))
      (by rw [hScard]; exact hlen),
    recoverSecret_eq_secret q T coeffs (hinj.mono (Finset.coe_subset.mpr hT))
      (le_trans hlen hTcard)]

/-- C4 witness: a 4-node roster over `ZMod 11` with threshold 3; recovery from
the 3 shares of nodes 0, 1, 2 agrees with recovery from all 4 shares. -/
theorem threshold_recovery_agreement_witness :
    (4 < 11 ∧ ([3, 2, 1] : List (ZMod 11)).length ≤ threshold 4 ∧
      ({0, 1, 2} : Finset ℕ) ⊆ Finset.range 4 ∧
      ({0, 1, 2, 3} : Finset ℕ) ⊆ Finset.range 4 ∧
      ({0, 1, 2} : Finset ℕ).card = threshold 4 ∧
      threshold 4 ≤ ({0, 1, 2, 3} : Finset ℕ).card) ∧
    threshold 4 = 4 - (4 - 1) / 3 ∧
    recoverSecret 11 {0, 1, 2}
        (fun i => polyEval 11 [3, 2, 1] (shareX 11 i)) =
      recoverSecret 11 {0, 1, 2, 3}
        (fun i => polyEval 11 [3, 2, 1] (shareX 11 i)) :=
  ⟨by decide,
   threshold_recovery_agreement 11 4 (by decide) [3, 2, 1] (by decide)
     {0, 1, 2} {0, 1, 2, 3} (by decide) (by decide) (by decide) (by decide)⟩

/-- C3: a successful reshare to a roster sharing at least one node with the
prior roster leaves the public key `X` unchanged and the new roster's shares
reconstruct the same secret scalar as before, so decryption of writes made
before and after the reshare behaves identically. -/
theorem reshare_preserves_key (q : ℕ) [Fact (Nat.Prime q)] (st : LtsState q)
    (newRoster : Finset ℕ) (rand : List (ZMod q))
    (hover : (st.roster ∩ newRoster).Nonempty)
    (hc1 : st.roster.card < q) (hc2 : newRoster.card < q)
    (hlen : st.coeffs.length ≤ threshold st.roster.card) :
    ∃ st2 : LtsState q,
      reshareLTS q st newRoster rand = Except.ok st2 ∧
      st2.X = st.X ∧
      st2.roster = newRoster ∧
      reconstructKey q st2 = reconstructKey q st ∧
      ∀ (wid : ℕ) (w : WriteRec q) (r : ReadRec q),
        DecryptKey q st2.secret wid w r = DecryptKey q st.secret wid w r := by
  have hR0 : newRoster.Nonempty := by
    obtain ⟨a, ha⟩ := hover
    exact ⟨a, (Finset.mem_inter.mp ha).2⟩
  refine ⟨{ roster := newRoster,
            coeffs := st.secret :: rand.take (threshold newRoster.card - 1),
            epoch := st.epoch + 1 }, reshare_ok q st newRoster rand hover,
          ?_, rfl, ?_, ?_⟩
  · unfold LtsState.X
    show LtsState.secret _ * Gq q = st.secret * Gq q
    rw [show LtsState.secret
        { roster := newRoster,
          coeffs := st.secret :: rand.take (threshold newRoster.card - 1),
          epoch := st.epoch + 1 } = st.secret from polyEval_cons_zero q _ _]
  · rw [reconstruct_fresh_sharing q st.secret rand newRoster (st.epoch + 1)
      hR0 hc2, reconstructKey_eq_secret q st hc1 hlen]
  · intro wid w r
    rw [show LtsState.secret
        { roster := newRoster,
          coeffs := st.secret :: rand.take (threshold newRoster.card - 1),
          epoch := st.epoch + 1 } = st.secret from polyEval_cons_zero q _ _]

/-- C3 witness: resharing a 4-node instance over `ZMod 11` to a roster sharing
three nodes with it. -/
theorem reshare_preserves_key_witness :
    ((({0, 1, 2, 3} : Finset ℕ) ∩ {1, 2, 3, 4}).Nonempty ∧
      ({0, 1, 2, 3} : Finset ℕ).card < 11 ∧
      ({1, 2, 3, 4} : Finset ℕ).card < 11 ∧
      ([3, 2, 1] : List (ZMod 11)).length ≤
        threshold ({0, 1, 2, 3} : Finset ℕ).card) ∧
    ∃ st2 : LtsState 11,
      reshareLTS 11 { roster := {0, 1, 2, 3}, coeffs := [3, 2, 1], epoch := 0 }
          {1, 2, 3, 4} [5, 6, 7] = Except.ok st2 ∧
      st2.X = LtsState.X
        { roster := {0, 1, 2, 3}, coeffs := [3, 2, 1], epoch := 0 } ∧
      st2.roster = {1, 2, 3, 4} ∧
      reconstructKey 11 st2 = reconstructKey 11
        { roster := {0, 1, 2, 3}, coeffs := [3, 2, 1], epoch := 0 } ∧
      ∀ (wid : ℕ) (w : WriteRec 11) (r : ReadRec 11),
        DecryptKey 11 st2.secret wid w r = DecryptKey 11
          (LtsState.secret
            { roster := {0, 1, 2, 3}, coeffs := [3, 2, 1], epoch := 0 })
          wid w r :=
  ⟨⟨by decide, by decide, by decide, by decide⟩,
   reshare_preserves_key 11
     { roster := {0, 1, 2, 3}, coeffs := [3, 2, 1], epoch := 0 }
     {1, 2, 3, 4} [5, 6, 7] (by decide) (by decide) (by decide) (by decide)⟩

/-- C5: a reshare request naming a roster entirely disjoint from the
instance's current roster fails with `DisjointRosterRejected`; no share is
transmitted and the Share Store is returned unmodified. -/
theorem disjoint_reshare_rejected (q : ℕ) (store : ShareStore q) (iid : ℕ)
    (st : LtsState q) (newRoster : Finset ℕ) (rand : List (ZMod q))
    (hst : store iid = some st) (hdisj : st.roster ∩ newRoster = ∅) :
    serviceReshareLTS q store iid newRoster rand =
      (store, some CalErr.disjointRosterRejected) := by
  simp [serviceReshareLTS, hst, reshareLTS, hdisj]

/-- C5 witness: a one-instance store over `ZMod 11` asked to reshare to a
fully disjoint roster keeps the store and reports the rejection. -/
theorem disjoint_reshare_rejected_witness :
    ((fun j => if j = 0 then
        some ({ roster := {0, 1, 2, 3}, coeffs := [3], epoch := 0 } :
          LtsState 11) else none) 0 =
      some { roster := {0, 1, 2, 3}, coeffs := [3], epoch := 0 } ∧
      ({ roster := {0, 1, 2, 3}, coeffs := [3], epoch := 0 } :
        LtsState 11).roster ∩ {4, 5, 6, 7} = ∅) ∧
    serviceReshareLTS 11
        (fun j => if j = 0 then
          some { roster := {0, 1, 2, 3}, coeffs := [3], epoch := 0 }
        else none) 0 {4, 5, 6, 7} [] =
      ((fun j => if j = 0 then
          some { roster := {0, 1, 2, 3}, coeffs := [3], epoch := 0 }
        else none), some CalErr.disjointRosterRejected) :=
  ⟨⟨rfl, by decide⟩,
   disjoint_reshare_rejected 11
     (fun j => if j = 0 then
        some { roster := {0, 1, 2, 3}, coeffs := [3], epoch := 0 }
      else none) 0
     { roster := {0, 1, 2, 3}, coeffs := [3], epoch := 0 } {4, 5, 6, 7} []
     rfl (by decide)⟩

/-- C7: re-running the reshare with the unchanged roster succeeds — also a
second time from the same proof — and after each run the shares reconstruct
the same secret scalar as before. -/
theorem reshare_repeat_idempotent (q : ℕ) [Fact (Nat.Prime q)]
    (st : LtsState q) (r1 r2 : List (ZMod q)) (hne : st.roster.Nonempty)
    (hq : st.roster.card < q)
    (hlen : st.coeffs.length ≤ threshold st.roster.card) :
    ∃ st1 st2 : LtsState q,
      reshareLTS q st st.roster r1 = Except.ok st1 ∧
      reshareLTS q st1 st.roster r2 = Except.ok st2 ∧
      reconstructKey q st1 = reconstructKey q st ∧
      reconstructKey q st2 = reconstructKey q st := by
  have hinter : (st.roster ∩ st.roster).Nonempty := by
    rwa [Finset.inter_self]
  have hrec : reconstructKey q st = st.secret :=
    reconstructKey_eq_secret q st hq hlen
  refine ⟨{ roster := st.roster,
            coeffs := st.secret :: r1.take (threshold st.roster.card - 1),
            epoch := st.epoch + 1 },
          { roster := st.roster,
            coeffs := st.secret :: r2.take (threshold st.roster.card - 1),
            epoch := st.epoch + 2 },
          reshare_ok q st st.roster r1 hinter, ?_, ?_, ?_⟩
  · rw [reshare_ok q _ st.roster r2 (by simpa [Finset.inter_self] using hne)]
    have hsec : LtsState.secret
        { roster := st.roster,
          coeffs := st.secret :: r1.take (threshold st.roster.card - 1),
          epoch := st.epoch + 1 } = st.secret := polyEval_cons_zero q _ _
    rw [hsec]
  · rw [reconstruct_fresh_sharing q st.secret r1 st.roster (st.epoch + 1)
      hne hq, hrec]
  · rw [reconstruct_fresh_sharing q st.secret r2 st.roster (st.epoch + 2)
      hne hq, hrec]

/-- C7 witness: repeating the reshare twice on an unchanged 4-node roster over
`ZMod 11`. -/
theorem reshare_repeat_idempotent_witness :
    (({0, 1, 2, 3} : Finset ℕ).Nonempty ∧
      ({0, 1, 2, 3} : Finset ℕ).card < 11 ∧
      ([3, 2, 1] : List (ZMod 11)).length ≤
        threshold ({0, 1, 2, 3} : Finset ℕ).card) ∧
    ∃ st1 st2 : LtsState 11,
      reshareLTS 11 { roster := {0, 1, 2, 3}, coeffs := [3, 2, 1], epoch := 0 }
          {0, 1, 2, 3} [4, 4] = Except.ok st1 ∧
      reshareLTS 11 st1 {0, 1, 2, 3} [9, 8] = Except.ok st2 ∧
      reconstructKey 11 st1 = reconstructKey 11
        { roster := {0, 1, 2, 3}, coeffs := [3, 2, 1], epoch := 0 } ∧
      reconstructKey 11 st2 = reconstructKey 11
        { roster := {0, 1, 2, 3}, coeffs := [3, 2, 1], epoch := 0 } :=
  ⟨⟨by decide, by decide, by decide⟩,
   by
     have h := reshare_repeat_idempotent 11
       { roster := {0, 1, 2, 3}, coeffs := [3, 2, 1], epoch := 0 }
       [4, 4] [9, 8] (by decide) (by decide) (by decide)
     simpa using h⟩

end Calypso

namespace Unicore

/-- C10: `Create` and `Exec` are atomic with respect to the client state — if
signing or submission errors, `Counters` and `Instance` are unchanged; on
success every counter is incremented by exactly one, `Create` additionally
sets `Instance` to the identifier derived from the spawn instruction, and
`Exec` leaves `Instance` unchanged. -/
theorem create_exec_atomic (c : Client) (derivedID : ℕ)
    (signErr addErr : Option ℕ) :
    ((create c derivedID signErr addErr).2 ≠ none →
      (create c derivedID signErr addErr).1 = c) ∧
    (signErr = none → addErr = none →
      (create c derivedID signErr addErr).1.Counters =
          c.Counters.map (fun count => count + 1) ∧
        (create c derivedID signErr addErr).1.Instance = derivedID) ∧
    ((exec c signErr addErr).2 ≠ none → (exec c signErr addErr).1 = c) ∧
    (signErr = none → addErr = none →
      (exec c signErr addErr).1.Counters =
          c.Counters.map (fun count => count + 1) ∧
        (exec c signErr addErr).1.Instance = c.Instance) := by
  cases signErr with
  | some e => simp [create, exec]
  | none =>
    cases addErr with
    | some e => simp [create, exec]
    | none => simp [create, exec, increaseCounters]

/-- C10 witness: a client with counters `[1, 5]`; a failed submission leaves
it untouched and a successful pair of calls increments both counters and sets
the instance. -/
theorem create_exec_atomic_witness :
    (((create { Counters := [1, 5], Instance := 0 } 42 none none).2 = none) →
      (create { Counters := [1, 5], Instance := 0 } 42 none none).1.Counters =
          ([1, 5] : List ℕ).map (fun count => count + 1) ∧
        (create { Counters := [1, 5], Instance := 0 } 42 none
          none).1.Instance = 42) ∧
    ((create { Counters := [1, 5], Instance := 0 } 42 none (some 7)).2 ≠
        none →
      (create { Counters := [1, 5], Instance := 0 } 42 none (some 7)).1 =
        { Counters := [1, 5], Instance := 0 }) := by
  constructor
  · intro _
    exact (create_exec_atomic { Counters := [1, 5], Instance := 0 } 42 none
      none).2.1 rfl rfl
  · exact (create_exec_atomic { Counters := [1, 5], Instance := 0 } 42 none
      (some 7)).1

end Unicore
